import Mathlib

/-!
# Verification of the enigma-plus parallel CTF runner

Shallow embedding, in Lean 4, of the parts of the `enigma-plus` repository
(`run_claude_parallel.py`, `sweagent/agent/models.py`,
`sweagent/environment/utils.py`, `calculate_token_costs.py`) that the
specification's claims are about, together with proofs or refutations of
those claims.

Python strings are modelled as `List Char` (wrapped in `String` where
convenient); Python `dict`s as insertion-ordered association lists;
Python floats as `ℚ`; socket/OS effects as boolean oracles passed in as
parameters.  Loops that Python drives by repeated scanning are written
with an explicit fuel argument that is always instantiated with a bound
(derived from the string length) that is large enough for the loop to
reach its fixpoint, so that every definition is executable by kernel
reduction.
-/

/-! ## Generic string machinery (Python `str` operations on `List Char`) -/

/-- Index of the first occurrence of `pat` in `s` (Python `s.find(pat)` for a
nonempty `pat`), `none` when `pat` does not occur. -/
def firstOcc (pat : List Char) : List Char → Option Nat
  | [] => if pat.isPrefixOf ([] : List Char) then some 0 else none
  | c :: cs =>
    if pat.isPrefixOf (c :: cs) then some 0
    else (firstOcc pat cs).map (· + 1)

/-- Python `pat in s` (substring test). -/
def containsSub (pat s : List Char) : Bool := (firstOcc pat s).isSome

/-- Worker for `splitOnL`; `fuel` bounds the number of characters examined and
is always called with `fuel = s.length`, which suffices because every step
consumes at least one character. -/
def splitOnGo (pat : List Char) : Nat → List Char → List Char → List (List Char)
  | _, [], acc => [acc.reverse]
  | 0, s, acc => [acc.reverse ++ s]
  | fuel + 1, c :: cs, acc =>
    if pat.isPrefixOf (c :: cs) then
      acc.reverse :: splitOnGo pat fuel (List.drop pat.length (c :: cs)) []
    else
      splitOnGo pat fuel cs (c :: acc)

/-- Python `s.split(pat)` for a nonempty separator `pat`. -/
def splitOnL (pat s : List Char) : List (List Char) :=
  splitOnGo pat s.length s []

/-- Worker for `replaceL` (same fuel convention as `splitOnGo`). -/
def replaceGo (pat repl : List Char) : Nat → List Char → List Char
  | _, [] => []
  | 0, s => s
  | fuel + 1, c :: cs =>
    if pat.isPrefixOf (c :: cs) then
      repl ++ replaceGo pat repl fuel (List.drop pat.length (c :: cs))
    else
      c :: replaceGo pat repl fuel cs

/-- Python `s.replace(pat, repl)` for nonempty `pat`: one left-to-right pass
replacing non-overlapping occurrences. -/
def replaceL (pat repl s : List Char) : List Char :=
  replaceGo pat repl s.length s

/-- The whitespace class of Python `str.strip()` (ASCII part). -/
def isPySpace (c : Char) : Bool :=
  c = ' ' || c = '\t' || c = '\n' || c = '\r' || c = Char.ofNat 11 || c = Char.ofNat 12

/-- Python `s.strip()`. -/
def pyStrip (s : List Char) : List Char :=
  ((s.dropWhile isPySpace).reverse.dropWhile isPySpace).reverse

/-! ## `clean_result` (`sweagent/agent/models.py`, lines 33-59) -/

/-- The `"</think>"` marker. -/
def thinkTag : List Char := "</think>".data

/-- The `"<|im_end|>"` sentinel (ASCII pipes). -/
def imEndTag : List Char := "<|im_end|>".data

/-- The `"<｜tool▁call▁begin｜>"` marker (fullwidth pipe U+FF5C, lower-block U+2581). -/
def toolCallBegin : List Char := "<｜tool▁call▁begin｜>".data

/-- The `"<｜tool▁call▁end｜>"` marker. -/
def toolCallEnd : List Char := "<｜tool▁call▁end｜>".data

/-- The `"<｜tool▁calls▁begin｜>"` marker. -/
def toolCallsBegin : List Char := "<｜tool▁calls▁begin｜>".data

/-- The `"<｜tool▁calls▁end｜>"` marker. -/
def toolCallsEnd : List Char := "<｜tool▁calls▁end｜>".data

/-- Does `re.search(b + ".*?" + e, s, DOTALL)` succeed?  Since the regex is
`literal b`, lazy gap, `literal e`, a match exists iff some occurrence of `b`
is followed (disjointly) by an occurrence of `e`; it suffices to look after
the first `b`. -/
def hasToolMatch (b e s : List Char) : Bool :=
  match firstOcc b s with
  | none => false
  | some i => (firstOcc e (List.drop (i + b.length) s)).isSome

/-- One `re.sub(b + ".*?" + e, "", s, DOTALL)` pass: remove every
non-overlapping leftmost-lazy match, scanning left to right.  Fuel convention
as above (`fuel = s.length` suffices: each step drops at least the matched
`b`). -/
def subToolPass (b e : List Char) : Nat → List Char → List Char
  | 0, s => s
  | fuel + 1, s =>
    match firstOcc b s with
    | none => s
    | some i =>
      let rest := List.drop (i + b.length) s
      match firstOcc e rest with
      | none => s
      | some j => List.take i s ++ subToolPass b e fuel (List.drop (j + e.length) rest)

/-- The `while re.search(pattern, content): content = re.sub(...)` loop of
`clean_result` for one pattern.  `fuel = s.length + 1` suffices: every
iteration with a match shortens the string. -/
def subToolLoop (b e : List Char) : Nat → List Char → List Char
  | 0, s => s
  | fuel + 1, s =>
    if hasToolMatch b e s then subToolLoop b e fuel (subToolPass b e s.length s) else s

/-- Function `clean_result` (`models.py` 33-59): strip everything up to the first
`</think>` (joining later fragments with a space), truncate at
`<|im_end|>`, iteratively delete `<｜tool▁call(s)▁begin｜>…<｜tool▁call(s)▁end｜>`
pairs, delete stray markers, and strip whitespace. -/
def clean_result (result : List Char) : List Char :=
  let content :=
    if containsSub thinkTag result then
      List.intercalate [' '] (splitOnL thinkTag result).tail
    else result
  let content := (splitOnL imEndTag content).headD []
  let content := subToolLoop toolCallBegin toolCallEnd (content.length + 1) content
  let content := subToolLoop toolCallsBegin toolCallsEnd (content.length + 1) content
  let content := replaceL toolCallsEnd []
    (replaceL toolCallsBegin [] (replaceL toolCallEnd [] (replaceL toolCallBegin [] content)))
  pyStrip content

/-! ### Step-identity lemmas used for the amended idempotence claim -/

theorem firstOcc_cons_none {pat : List Char} {c : Char} {cs : List Char}
    (h : firstOcc pat (c :: cs) = none) :
    pat.isPrefixOf (c :: cs) = false ∧ firstOcc pat cs = none := by
  by_cases hp : pat.isPrefixOf (c :: cs)
  · simp [firstOcc, hp] at h
  · refine ⟨by simp [hp], ?_⟩
    simpa [firstOcc, hp] using h

theorem splitOnGo_of_no_occ (pat : List Char) :
    ∀ (fuel : Nat) (s acc : List Char), firstOcc pat s = none →
      splitOnGo pat fuel s acc = [acc.reverse ++ s] := by
  intro fuel
  induction fuel with
  | zero =>
    intro s acc _
    cases s with
    | nil => simp [splitOnGo]
    | cons c cs => simp [splitOnGo]
  | succ n ih =>
    intro s acc h
    cases s with
    | nil => simp [splitOnGo]
    | cons c cs =>
      obtain ⟨hp, hr⟩ := firstOcc_cons_none h
      rw [splitOnGo, if_neg (by simp [hp]), ih cs (c :: acc) hr]
      simp

theorem replaceGo_of_no_occ (pat repl : List Char) :
    ∀ (fuel : Nat) (s : List Char), firstOcc pat s = none →
      replaceGo pat repl fuel s = s := by
  intro fuel
  induction fuel with
  | zero => intro s _; cases s <;> rfl
  | succ n ih =>
    intro s h
    cases s with
    | nil => rfl
    | cons c cs =>
      obtain ⟨hp, hr⟩ := firstOcc_cons_none h
      rw [replaceGo, if_neg (by simp [hp]), ih cs hr]

theorem subToolLoop_of_no_occ (b e : List Char) (fuel : Nat) (s : List Char)
    (h : firstOcc b s = none) : subToolLoop b e fuel s = s := by
  cases fuel with
  | zero => rfl
  | succ n => rw [subToolLoop, if_neg (by simp [hasToolMatch, h])]

theorem pyStrip_eq : ∀ s : List Char,
    pyStrip s = List.rdropWhile isPySpace (List.dropWhile isPySpace s) := fun _ => rfl

theorem pyStrip_idem (s : List Char) : pyStrip (pyStrip s) = pyStrip s := by
  rw [pyStrip_eq, pyStrip_eq]
  have h1 : List.dropWhile isPySpace
      (List.rdropWhile isPySpace (List.dropWhile isPySpace s)) =
      List.rdropWhile isPySpace (List.dropWhile isPySpace s) := by
    rw [List.dropWhile_eq_self_iff]
    intro hl
    have hpre := List.rdropWhile_prefix isPySpace (List.dropWhile isPySpace s)
    have hhead :
        (List.rdropWhile isPySpace (List.dropWhile isPySpace s)).get ⟨0, hl⟩ =
          (List.dropWhile isPySpace s).get
            ⟨0, lt_of_lt_of_le hl hpre.length_le⟩ := by
      have := List.IsPrefix.getElem hpre (show 0 < _ from hl)
      simpa [List.get_eq_getElem] using this
    rw [hhead]
    have hself : List.dropWhile isPySpace (List.dropWhile isPySpace s) =
        List.dropWhile isPySpace s := List.dropWhile_idempotent _ _
    exact (List.dropWhile_eq_self_iff.mp hself) _
  rw [h1, List.rdropWhile_idempotent]

theorem pyStrip_clean_result (x : List Char) :
    pyStrip (clean_result x) = clean_result x := by
  rw [clean_result]
  exact pyStrip_idem _

/-- The concrete input refuting C6: the fragments of `</think>` are glued
together only after the marker-deletion step, so the second pass sees a
`</think>` that the first pass could not. -/
def cleanCexInput : List Char := "</thi".data ++ toolCallBegin ++ "nk>rest".data

/-- Claim C6, counterexample: `clean_result` is not idempotent:
`clean_result cleanCexInput` still contains `</think>`, which a second
application removes. -/
theorem C6_clean_result_not_idempotent :
    clean_result cleanCexInput = "</think>rest".data ∧
    clean_result (clean_result cleanCexInput) = "rest".data ∧
    clean_result (clean_result cleanCexInput) ≠ clean_result cleanCexInput := by
  refine ⟨by decide, by decide, by decide⟩

/-- Claim C6, amended: `clean_result` is idempotent on every input whose cleaned
form contains none of the six markers (`</think>`, `<|im_end|>`, and the four
tool-call markers); the counterexample shows the marker-free condition cannot
be dropped, because deleting markers can splice new marker occurrences
together. -/
theorem C6_clean_result_idempotent_of_marker_free (x : List Char)
    (h1 : firstOcc thinkTag (clean_result x) = none)
    (h2 : firstOcc imEndTag (clean_result x) = none)
    (h3 : firstOcc toolCallBegin (clean_result x) = none)
    (h4 : firstOcc toolCallEnd (clean_result x) = none)
    (h5 : firstOcc toolCallsBegin (clean_result x) = none)
    (h6 : firstOcc toolCallsEnd (clean_result x) = none) :
    clean_result (clean_result x) = clean_result x := by
  have hsplit : splitOnL imEndTag (clean_result x) = [clean_result x] := by
    rw [splitOnL, splitOnGo_of_no_occ _ _ _ _ h2]; simp
  have hrep : ∀ pat : List Char, firstOcc pat (clean_result x) = none →
      replaceL pat [] (clean_result x) = clean_result x := fun pat hp =>
    replaceGo_of_no_occ _ _ _ _ hp
  conv_lhs => rw [clean_result]
  rw [show containsSub thinkTag (clean_result x) = false by
        simp [containsSub, h1]]
  simp only [Bool.false_eq_true, if_false, hsplit, List.headD_cons]
  rw [subToolLoop_of_no_occ _ _ _ _ h3, subToolLoop_of_no_occ _ _ _ _ h5,
    hrep _ h3, hrep _ h4, hrep _ h5, hrep _ h6]
  exact pyStrip_clean_result x

/-- Witness for the amended C6 theorem at a concrete input. -/
theorem C6_clean_result_idempotent_witness :
    clean_result (clean_result ("a</think> hello ".data)) =
      clean_result ("a</think> hello ".data) :=
  C6_clean_result_idempotent_of_marker_free _ (by decide) (by decide) (by decide)
    (by decide) (by decide) (by decide)

/-! ## `BaseModel.update_stats` (`sweagent/agent/models.py`, lines 167-213)

Floats are modelled as `ℚ`; `self.stats` mutation is modelled by returning the
new `APIStats`; `raise CostLimitExceededError(msg)` is modelled as
`Except.error msg` (the state component still carries the mutated stats, since
Python raises after the updates). -/

/-- Structure `APIStats` (`models.py` 85-91). -/
structure APIStats where
  total_cost : ℚ
  instance_cost : ℚ
  tokens_sent : ℕ
  tokens_received : ℕ
  api_calls : ℕ
deriving DecidableEq

/-- The two cost-limit fields of `ModelArguments` (`models.py` 61-82). -/
structure ModelArguments where
  per_instance_cost_limit : ℚ
  total_cost_limit : ℚ
deriving DecidableEq

/-- The per-token rates from the model metadata table. -/
structure ModelMetadata where
  cost_per_input_token : ℚ
  cost_per_output_token : ℚ
deriving DecidableEq

/-- Method `BaseModel.update_stats` (`models.py` 167-213): mutate the stats, then
raise on either exceeded limit (total first), else return the call's cost. -/
def update_stats (args : ModelArguments) (md : ModelMetadata) (stats : APIStats)
    (input_tokens output_tokens : ℕ) : APIStats × Except String ℚ :=
  let cost := md.cost_per_input_token * input_tokens
      + md.cost_per_output_token * output_tokens
  let stats1 : APIStats :=
    { total_cost := stats.total_cost + cost
      instance_cost := stats.instance_cost + cost
      tokens_sent := stats.tokens_sent + input_tokens
      tokens_received := stats.tokens_received + output_tokens
      api_calls := stats.api_calls + 1 }
  if 0 < args.total_cost_limit ∧ args.total_cost_limit ≤ stats1.total_cost then
    (stats1, Except.error "Total cost limit exceeded")
  else if 0 < args.per_instance_cost_limit ∧
      args.per_instance_cost_limit ≤ stats1.instance_cost then
    (stats1, Except.error "Instance cost limit exceeded")
  else
    (stats1, Except.ok cost)

/-- Claim C7: `update_stats` raises `CostLimitExceededError` iff, after adding
the call's cost to the running totals, the total-cost limit is positive and
reached, or the per-instance limit is positive and reached. -/
theorem C7_update_stats_raises_iff (args : ModelArguments) (md : ModelMetadata)
    (stats : APIStats) (input_tokens output_tokens : ℕ) :
    (∃ msg, (update_stats args md stats input_tokens output_tokens).2
        = Except.error msg) ↔
      (0 < args.total_cost_limit ∧
        args.total_cost_limit ≤ stats.total_cost +
          (md.cost_per_input_token * input_tokens
            + md.cost_per_output_token * output_tokens)) ∨
      (0 < args.per_instance_cost_limit ∧
        args.per_instance_cost_limit ≤ stats.instance_cost +
          (md.cost_per_input_token * input_tokens
            + md.cost_per_output_token * output_tokens)) := by
  unfold update_stats
  dsimp only
  split_ifs with h1 h2 <;> simp_all

/-- Claim C8: whenever `update_stats` raises, the returned stats already include
the triggering call's contribution: the error is raised only after the five
fields have been updated, and the update is not rolled back. -/
theorem C8_update_stats_no_rollback (args : ModelArguments) (md : ModelMetadata)
    (stats : APIStats) (input_tokens output_tokens : ℕ) (msg : String)
    (h : (update_stats args md stats input_tokens output_tokens).2
        = Except.error msg) :
    (update_stats args md stats input_tokens output_tokens).1 =
      { total_cost := stats.total_cost +
          (md.cost_per_input_token * input_tokens
            + md.cost_per_output_token * output_tokens)
        instance_cost := stats.instance_cost +
          (md.cost_per_input_token * input_tokens
            + md.cost_per_output_token * output_tokens)
        tokens_sent := stats.tokens_sent + input_tokens
        tokens_received := stats.tokens_received + output_tokens
        api_calls := stats.api_calls + 1 } := by
  unfold update_stats
  dsimp only
  split_ifs <;> rfl

/-- Witness for C8: a call whose cost crosses the instance limit raises, and
the returned stats carry the call's tokens and cost. -/
theorem C8_update_stats_no_rollback_witness :
    (update_stats ⟨1, 0⟩ ⟨1, 1⟩ ⟨0, 0, 0, 0, 0⟩ 2 3).1 = ⟨5, 5, 2, 3, 1⟩ := by
  have h : (update_stats ⟨1, 0⟩ ⟨1, 1⟩ ⟨0, 0, 0, 0, 0⟩ 2 3).2
      = Except.error "Instance cost limit exceeded" := by
    unfold update_stats
    norm_num
  have := C8_update_stats_no_rollback ⟨1, 0⟩ ⟨1, 1⟩ ⟨0, 0, 0, 0, 0⟩ 2 3 _ h
  rw [this]
  norm_num

/-! ## Best-entry selection in `calculate_token_costs.py` (lines 186-194)

`analyze_model_run` groups the `all_preds.jsonl` lines by `instance_id` in
file order and then, per id, keeps the first entry with a flag
(`model_patch is not None`), falling back to the first entry. -/

/-- One parsed prediction line: `has_flag` in the source is
`model_patch is not None`, so `model_patch : Option String` suffices. -/
structure PredEntry where
  instance_id : String
  model_patch : Option String
deriving DecidableEq

/-- Flag test `has_flag` (`calculate_token_costs.py` line 179). -/
def predHasFlag (e : PredEntry) : Bool := e.model_patch.isSome

/-- The selection of `analyze_model_run` (`calculate_token_costs.py` 186-194)
for the file-ordered entry list of one `instance_id`. -/
def select_best_entry (entries : List PredEntry) : Option PredEntry :=
  match entries.filter predHasFlag with
  | flagged :: _ => some flagged
  | [] => entries.head?

/-- Claim C9: for the file-ordered records of one `instance_id`, the collator
selects the first record with a non-null `model_patch`, and the first record
of the list when none has one. -/
theorem C9_select_best_entry (entries : List PredEntry) :
    (∀ e, entries.find? predHasFlag = some e → select_best_entry entries = some e) ∧
    (entries.find? predHasFlag = none → select_best_entry entries = entries.head?) := by
  have hkey : entries.filter predHasFlag = [] ∨
      ∃ e rest, entries.filter predHasFlag = e :: rest ∧
        entries.find? predHasFlag = some e := by
    induction entries with
    | nil => exact Or.inl rfl
    | cons a l ih =>
      by_cases ha : predHasFlag a
      · exact Or.inr ⟨a, l.filter predHasFlag, by simp [ha, List.find?_cons]⟩
      · rcases ih with h | ⟨e, rest, hf, hd⟩
        · exact Or.inl (by simp [List.filter_cons, ha, h])
        · exact Or.inr ⟨e, rest, by simp [List.filter_cons, ha, hf, List.find?_cons, hd]⟩
  constructor
  · intro e he
    rcases hkey with h | ⟨f, rest, hf, hd⟩
    · rw [List.filter_eq_nil_iff] at h
      have hflag := List.find?_some he
      have hmem := List.mem_of_find?_eq_some he
      exact absurd hflag (by simpa using h e hmem)
    · rw [hd] at he
      injection he with he
      subst he
      simp [select_best_entry, hf]
  · intro hnone
    rcases hkey with h | ⟨f, rest, hf, hd⟩
    · simp [select_best_entry, h]
    · rw [hd] at hnone; exact absurd hnone (by simp)

/-- Witness for C9: among three records for one id, the second is the first
flagged one and is selected. -/
theorem C9_select_best_entry_witness :
    select_best_entry
      [⟨"web_Foo", none⟩, ⟨"web_Foo", some "flag"⟩, ⟨"web_Foo", none⟩] =
      some ⟨"web_Foo", some "flag"⟩ :=
  (C9_select_best_entry _).1 _ (by decide)

/-! ## `get_multiple_available_ports` (`sweagent/environment/utils.py`, 97-141)

`random.shuffle` is modelled by quantifying over an arbitrary permutation
`shuffled` of the port range; the two socket effects — `is_port_in_use` and
the success of the temporary reserving `bind` — are boolean oracles `inUse`
and `bindOk`.  `count` is an `Int` because the Python parameter may be
non-positive.  `raise RuntimeError` is modelled as `Except.error`. -/

/-- Python `list(range(start_port, end_port + 1))` before shuffling. -/
def portRangeList (start_port end_port : Nat) : List Nat :=
  List.range' start_port (end_port + 1 - start_port)

/-- The `for port in port_range` loop of `get_multiple_available_ports`:
stop when `count` ports are held, skip ports that are in use or fail to
bind, append the rest. -/
def allocLoop (count : Int) (inUse bindOk : Nat → Bool) :
    List Nat → List Nat → List Nat
  | [], acc => acc
  | p :: ps, acc =>
    if count ≤ (acc.length : Int) then acc
    else if inUse p then allocLoop count inUse bindOk ps acc
    else if bindOk p then allocLoop count inUse bindOk ps (acc ++ [p])
    else allocLoop count inUse bindOk ps acc

/-- Function `get_multiple_available_ports` (`utils.py` 97-141) on an already shuffled
range: `count <= 0` returns `[]`; otherwise collect ports and raise when
fewer than `count` could be reserved. -/
def get_multiple_available_ports (count : Int) (shuffled : List Nat)
    (inUse bindOk : Nat → Bool) : Except String (List Nat) :=
  if count ≤ 0 then Except.ok []
  else
    let allocated := allocLoop count inUse bindOk shuffled []
    if (allocated.length : Int) < count then
      Except.error "Could only find fewer available ports than requested"
    else Except.ok allocated

/-- The availability test a port must pass to be collected. -/
def portAvail (inUse bindOk : Nat → Bool) (p : Nat) : Bool := !inUse p && bindOk p

theorem allocLoop_length_le (count : Int) (inUse bindOk : Nat → Bool) :
    ∀ (ps acc : List Nat), (acc.length : Int) ≤ count →
      ((allocLoop count inUse bindOk ps acc).length : Int) ≤ count := by
  intro ps
  induction ps with
  | nil => intro acc h; simpa [allocLoop] using h
  | cons p ps ih =>
    intro acc h
    rw [allocLoop]
    split_ifs with h1 h2 h3
    · exact h
    · exact ih acc h
    · rcases lt_or_eq_of_le h with h' | h'
      · exact ih _ (by simpa using h')
      · omega
    · exact ih acc h

theorem allocLoop_ge_or_exhausts (count : Int) (inUse bindOk : Nat → Bool) :
    ∀ (ps acc : List Nat),
      count ≤ ((allocLoop count inUse bindOk ps acc).length : Int) ∨
      (allocLoop count inUse bindOk ps acc).length =
        acc.length + (ps.filter (portAvail inUse bindOk)).length := by
  intro ps
  induction ps with
  | nil => intro acc; right; simp [allocLoop]
  | cons p ps ih =>
    intro acc
    rw [allocLoop]
    split_ifs with h1 h2 h3
    · left; exact h1
    · rcases ih acc with h | h
      · exact Or.inl h
      · right; rw [h]; simp [List.filter_cons, portAvail, h2]
    · rcases ih (acc ++ [p]) with h | h
      · exact Or.inl h
      · right
        rw [h]
        simp only [List.length_append, List.length_cons, List.length_nil]
        rw [List.filter_cons, show portAvail inUse bindOk p = true by
          simp [portAvail, h2, h3]]
        simp
        omega
    · rcases ih acc with h | h
      · exact Or.inl h
      · right; rw [h]; simp [List.filter_cons, portAvail, h2, h3]

theorem allocLoop_mem (count : Int) (inUse bindOk : Nat → Bool) :
    ∀ (ps acc : List Nat) (x : Nat), x ∈ allocLoop count inUse bindOk ps acc →
      x ∈ acc ∨ x ∈ ps := by
  intro ps
  induction ps with
  | nil => intro acc x hx; exact Or.inl (by simpa [allocLoop] using hx)
  | cons p ps ih =>
    intro acc x hx
    rw [allocLoop] at hx
    split_ifs at hx with h1 h2 h3
    · exact Or.inl hx
    · rcases ih acc x hx with h | h
      · exact Or.inl h
      · exact Or.inr (List.mem_cons_of_mem _ h)
    · rcases ih (acc ++ [p]) x hx with h | h
      · rcases List.mem_append.mp h with h | h
        · exact Or.inl h
        · exact Or.inr (by simpa using Or.inl (List.mem_singleton.mp h))
      · exact Or.inr (List.mem_cons_of_mem _ h)
    · rcases ih acc x hx with h | h
      · exact Or.inl h
      · exact Or.inr (List.mem_cons_of_mem _ h)

theorem allocLoop_nodup (count : Int) (inUse bindOk : Nat → Bool) :
    ∀ (ps acc : List Nat), (acc ++ ps).Nodup →
      (allocLoop count inUse bindOk ps acc).Nodup := by
  intro ps
  induction ps with
  | nil => intro acc h; simpa [allocLoop] using h
  | cons p ps ih =>
    intro acc h
    rw [allocLoop]
    have hskip : (acc ++ ps).Nodup := by
      refine List.Nodup.sublist ?_ h
      exact List.Sublist.append_left (List.sublist_cons_self p ps) acc
    split_ifs with h1 h2 h3
    · exact (List.nodup_append.mp hskip).1
    · exact ih acc hskip
    · refine ih (acc ++ [p]) ?_
      rw [List.append_assoc]
      simpa using h
    · exact ih acc hskip

/-- Claim C10: with `shuffled` an arbitrary permutation of
`[start_port, end_port]`: a returned list has exactly `count` pairwise
distinct ports, all within the range (with `count ≤ 0` giving `[]`); and when
fewer than `count` ports of the range pass the availability test the function
raises instead of returning a short list. -/
theorem C10_get_multiple_available_ports (count : Int)
    (start_port end_port : Nat) (shuffled : List Nat) (inUse bindOk : Nat → Bool)
    (hperm : shuffled.Perm (portRangeList start_port end_port)) :
    (count ≤ 0 → get_multiple_available_ports count shuffled inUse bindOk
        = Except.ok []) ∧
    (∀ l, get_multiple_available_ports count shuffled inUse bindOk = Except.ok l →
      (count ≤ 0 ∧ l = []) ∨
      ((l.length : Int) = count ∧ l.Nodup ∧
        ∀ x ∈ l, start_port ≤ x ∧ x ≤ end_port)) ∧
    (0 < count →
      ((shuffled.filter (portAvail inUse bindOk)).length : Int) < count →
      ∃ msg, get_multiple_available_ports count shuffled inUse bindOk
        = Except.error msg) := by
  have hnodup : shuffled.Nodup := hperm.nodup_iff.mpr (List.nodup_range' _ _)
  have hmem : ∀ x ∈ shuffled, start_port ≤ x ∧ x ≤ end_port := by
    intro x hx
    have : x ∈ portRangeList start_port end_port := hperm.mem_iff.mp hx
    rw [portRangeList, List.mem_range'] at this
    omega
  refine ⟨fun h => by simp [get_multiple_available_ports, h], ?_, ?_⟩
  · intro l hl
    by_cases hc : count ≤ 0
    · left
      refine ⟨hc, ?_⟩
      rw [get_multiple_available_ports, if_pos hc] at hl
      exact (Except.ok.injEq _ _).mp hl.symm ▸ rfl
    · right
      rw [get_multiple_available_ports, if_neg hc] at hl
      dsimp only at hl
      split_ifs at hl with hshort
      have hl' : allocLoop count inUse bindOk shuffled [] = l := by
        exact (Except.ok.injEq _ _).mp hl
      have hle := allocLoop_length_le count inUse bindOk shuffled []
        (by simp; omega)
      refine ⟨?_, ?_, ?_⟩
      · rw [hl'] at hle hshort; omega
      · have := allocLoop_nodup count inUse bindOk shuffled [] (by simpa using hnodup)
        rwa [hl'] at this
      · intro x hx
        have := allocLoop_mem count inUse bindOk shuffled [] x (hl' ▸ hx)
        rcases this with h | h
        · simp at h
        · exact hmem x h
  · intro hc hshort
    rw [get_multiple_available_ports, if_neg (by omega)]
    rcases allocLoop_ge_or_exhausts count inUse bindOk shuffled [] with h | h
    · exfalso
      have hle : ∀ (ps acc : List Nat),
          (allocLoop count inUse bindOk ps acc).length ≤
            acc.length + (ps.filter (portAvail inUse bindOk)).length := by
        intro ps
        induction ps with
        | nil => intro acc; simp [allocLoop]
        | cons p ps ih =>
          intro acc
          rw [allocLoop]
          split_ifs with h1 h2 h3
          · simp
          · have := ih acc; simp only [List.filter_cons, portAvail, h2]
            simpa [portAvail, h2] using this
          · have := ih (acc ++ [p])
            have hp : portAvail inUse bindOk p = true := by simp [portAvail, h2, h3]
            rw [List.filter_cons, hp]
            simp only [if_true, List.length_append, List.length_cons,
              List.length_nil, List.length_cons] at this ⊢
            omega
          · have := ih acc
            rw [List.filter_cons, show portAvail inUse bindOk p = false by
              simp [portAvail, h2, h3]]
            simpa using this
      have := hle shuffled []
      simp only [List.length_nil, Nat.zero_add] at this
      omega
    · rw [if_pos (by simp at h; omega)]
      exact ⟨_, rfl⟩

/-- Witness for C10 at a concrete range, permutation and oracles. -/
theorem C10_get_multiple_available_ports_witness :
    get_multiple_available_ports 2 (portRangeList 10 12)
        (fun p => p == 11) (fun _ => true) = Except.ok [10, 12] ∧
    ([10, 12] : List Nat).Nodup := by
  have h := C10_get_multiple_available_ports 2 10 12 (portRangeList 10 12)
    (fun p => p == 11) (fun _ => true) (List.Perm.refl _)
  have hres : get_multiple_available_ports 2 (portRangeList 10 12)
      (fun p => p == 11) (fun _ => true) = Except.ok [10, 12] := by rfl
  exact ⟨hres,
    ((h.2.1 [10, 12] hres).resolve_left
      (fun hcon => absurd hcon.1 (by norm_num))).2.1⟩

/-! ## Attempt naming and per-attempt Docker cleanup (`run_claude_parallel.py`)

`ChallengeRunner._generate_execution_id` (1032-1037) builds the execution id,
line 1420 builds the tmux session name (`session_prefix` is
`"swe_" + execution_id`, line 771), line 1110 builds the container name, and
`DockerManager.cleanup_task_resources` (657-684) parses the session name back
with `session_name.split('_')`. -/

/-- String wrapper for `splitOnL` (Python `s.split(sep)`). -/
def pySplit (sep s : String) : List String :=
  (splitOnL sep.data s.data).map List.asString

/-- String wrapper for `replaceL` (Python `s.replace(pat, repl)`). -/
def pyReplace (pat repl s : String) : String :=
  (replaceL pat.data repl.data s.data).asString

/-- Method `_generate_execution_id` (1032-1037):
`f"{machine_id}_{process_id}_{timestamp}"` with `machine_id` the short
hostname, `process_id` the pid and `timestamp` a shortened epoch second. -/
def generate_execution_id (machine_id : String) (process_id timestamp : Nat) : String :=
  machine_id ++ "_" ++ Nat.repr process_id ++ "_" ++ Nat.repr timestamp

/-- Session name (line 1420 together with `session_prefix`, line 771):
`f"swe_{execution_id}_{instance_id}_{challenge_id}_try{try_num}"`. -/
def session_name_of (execution_id instance_id challenge_id : String)
    (try_num : Nat) : String :=
  "swe_" ++ execution_id ++ "_" ++ instance_id ++ "_" ++ challenge_id ++
    "_try" ++ Nat.repr try_num

/-- Container name of an attempt (line 1110, same pattern as line 673):
`f"{execution_id}-parallel-{instance_id}-{challenge_id}-try{try_num}"`. -/
def parallel_container_name (execution_id instance_id challenge_id : String)
    (try_num : Nat) : String :=
  execution_id ++ "-parallel-" ++ instance_id ++ "-" ++ challenge_id ++
    "-try" ++ Nat.repr try_num

/-- The parsing step of `cleanup_task_resources` (657-670): split the session
name on `'_'` and read fields 2, 3 and 4 (with `"try"` deleted) as
`(instance_id, challenge_id, try_num)`; `none` models the unparsed warning
branch for fewer than 5 fields. -/
def cleanup_parse_session_name (session_name : String) :
    Option (String × String × String) :=
  let parts := pySplit "_" session_name
  if 5 ≤ parts.length then
    some (parts.getD 2 "", parts.getD 3 "", pyReplace "try" "" (parts.getD 4 ""))
  else none

/-- The container that `cleanup_task_resources` targets for removal
(lines 672-674). -/
def cleanup_target_container (session_name execution_id : String) :
    Option String :=
  (cleanup_parse_session_name session_name).map fun pt =>
    execution_id ++ "-parallel-" ++ pt.1 ++ "-" ++ pt.2.1 ++ "-try" ++ pt.2.2

/-- Claim C2, refuted: because `_generate_execution_id` puts two underscores
inside the execution id, `split('_')` indices 2/3/4 land on the pid, the
timestamp and the instance id, so per-attempt cleanup recovers the wrong
triple and targets a container that is not the attempt's
(`{execution_id}-parallel-{pid}-{timestamp}-try{instance_id}` instead of
`{execution_id}-parallel-{instance_id}-{challenge_id}-try{try_number}`),
contradicting the code's own comments on lines 664-670. -/
theorem C2_cleanup_parses_wrong_fields :
    generate_execution_id "host" 1234 42 = "host_1234_42" ∧
    session_name_of "host_1234_42" "pwn" "chal" 1 =
      "swe_host_1234_42_pwn_chal_try1" ∧
    cleanup_parse_session_name "swe_host_1234_42_pwn_chal_try1" =
      some ("1234", "42", "pwn") ∧
    cleanup_target_container "swe_host_1234_42_pwn_chal_try1" "host_1234_42" =
      some "host_1234_42-parallel-1234-42-trypwn" ∧
    parallel_container_name "host_1234_42" "pwn" "chal" 1 =
      "host_1234_42-parallel-pwn-chal-try1" ∧
    cleanup_target_container "swe_host_1234_42_pwn_chal_try1" "host_1234_42" ≠
      some (parallel_container_name "host_1234_42" "pwn" "chal" 1) := by
  refine ⟨rfl, rfl, by decide, by decide, rfl, by decide⟩

/-! ## Supervisor sweeps (`run_claude_parallel.py`)

`ChallengeRunner.cleanup_finished_sessions` (per tracked line, 1625-1774) and
`ChallengeRunner._aggressive_cleanup_stuck_sessions` (1242-1307).  The Docker
and filesystem observations the code makes about one tracked session are
collected into `SessionObs`; times are `ℚ` seconds since the epoch.  The
embedding reproduces the branch structure around the status file; the only
fabricated quantity is the one the code itself fabricates: with no status
file it sets `session_start_time = time.time() - 300` (waiting loop) or
`- 600` (aggressive sweep) instead of a real start time. -/

/-- What one pass observes about one tracked session: whether
`tmux has-session` succeeds, the status file's content and mtime when the
file exists, and whether the per-attempt log shows a Docker error
signature. -/
structure SessionObs where
  sessionExists : Bool
  status : Option (String × ℚ)
  dockerErrorInLog : Bool
deriving DecidableEq

/-- Outcome of `cleanup_finished_sessions` for one tracked session. -/
inductive SweepAction where
  /-- session gone, no status file: write `COMPLETED_FAILED`, drop tracking -/
  | removedMarkFailed
  /-- session gone, status file present: drop tracking -/
  | removed
  /-- terminal status read: kill session (and per-task cleanup) -/
  | finishedKill
  /-- status mtime older than 3600 s: write `COMPLETED_FAILED`, kill -/
  | timeoutKill
  /-- Docker error signature in the log: write `COMPLETED_FAILED`, kill -/
  | dockerErrorKill
  /-- keep the line in the active-session registry -/
  | keepActive
  /-- no status file and deemed too old: write `COMPLETED_FAILED`, kill -/
  | noStatusKill
  /-- no status file, not deemed too old: keep the line -/
  | noStatusKeep
deriving DecidableEq

/-- Per-session decision of `cleanup_finished_sessions` (1625-1774) at wall
time `now`. -/
def cleanup_finished_sessions_decision (now : ℚ) (obs : SessionObs) :
    SweepAction :=
  if obs.sessionExists = false then
    if obs.status.isNone then .removedMarkFailed else .removed
  else
    match obs.status with
    | some (content, mtime) =>
      if content = "FINISHED" ∨ content = "COMPLETED_SUCCESS" ∨
          content = "COMPLETED_FAILED" then .finishedKill
      else if 3600 < now - mtime then .timeoutKill
      else if obs.dockerErrorInLog then .dockerErrorKill
      else .keepActive
    | none =>
      -- lines 1750-1768: the code has no start time, so it *assumes* the
      -- session started 300 s ago and compares that fabricated age to 1800 s
      let session_start_time := now - 300
      if 1800 < now - session_start_time then .noStatusKill else .noStatusKeep

/-- Does `_aggressive_cleanup_stuck_sessions` (1242-1307) classify the
session as stuck (kill + `COMPLETED_FAILED`)?  With a status file the test
is staleness of the mtime beyond 1800 s; without one the code assumes a
start 600 s ago and compares that fabricated age to 2400 s
(lines 1275-1280). -/
def aggressive_cleanup_is_stuck (now : ℚ) (obs : SessionObs) : Bool :=
  if obs.sessionExists = false then false
  else
    match obs.status with
    | some (_, mtime) => 1800 < now - mtime
    | none =>
      let session_start_time := now - 600
      decide (2400 < now - session_start_time)

/-- Claim C3, refuted: for a session that exists and has no status file,
neither sweep ever takes the kill branch, whatever the wall time (and hence
however old the session really is): the fabricated age is the constant 300 s
(waiting loop) or 600 s (aggressive sweep), which never exceeds the 1800 s /
2400 s thresholds, so the session is kept active instead of being marked
`COMPLETED_FAILED` and killed. -/
theorem C3_no_status_kill_branch_unreachable (now : ℚ) (obs : SessionObs)
    (hex : obs.sessionExists = true) (hst : obs.status = none) :
    cleanup_finished_sessions_decision now obs = SweepAction.noStatusKeep ∧
    cleanup_finished_sessions_decision now obs ≠ SweepAction.noStatusKill ∧
    aggressive_cleanup_is_stuck now obs = false := by
  have h1 : cleanup_finished_sessions_decision now obs =
      SweepAction.noStatusKeep := by
    rw [cleanup_finished_sessions_decision, if_neg (by simp [hex]), hst]
    dsimp only
    rw [show now - (now - 300) = 300 by ring, if_neg (by norm_num)]
  refine ⟨h1, by simp [h1], ?_⟩
  rw [aggressive_cleanup_is_stuck, if_neg (by simp [hex]), hst]
  dsimp only
  rw [show now - (now - 600) = 600 by ring]
  simp only [decide_eq_false_iff_not]
  norm_num

/-- Witness for C3: a concrete session, arbitrarily old (the wall time plays
no role), is kept active by both sweeps. -/
theorem C3_no_status_kill_branch_unreachable_witness :
    cleanup_finished_sessions_decision 1000000 ⟨true, none, false⟩ =
      SweepAction.noStatusKeep ∧
    aggressive_cleanup_is_stuck 1000000 ⟨true, none, false⟩ = false := by
  have h := C3_no_status_kill_branch_unreachable 1000000 ⟨true, none, false⟩
    rfl rfl
  exact ⟨h.1, h.2.2⟩

/-! ## `create_dynamic_docker_compose` (`sweagent/environment/utils.py`, 143-280)

The YAML compose document is modelled structurally: services and networks as
insertion-ordered association lists, a port entry as either a string or an
int (the two shapes the code handles specially), service network references
as either the list form or the dict-with-aliases form (alias configs opaque),
and a top-level network as either the `driver: bridge, name: …` object the
rewrite emits or an opaque original config.  `get_available_port` is
modelled by a `supply` list of fresh ports carried in `PortState`
(an exhausted supply models the caught `RuntimeError`, whose handler keeps
the original entry); the mutable `port_mappings` dict (possibly `None`)
rides in the same state. -/

/-- One element of a service's `ports:` list. -/
inductive PortEntry where
  | pstr (s : String)
  | pint (n : Nat)
deriving DecidableEq

/-- A service's `networks:` value: plain list, or dict with opaque configs. -/
inductive NetVal where
  | nlist (ns : List String)
  | ndict (ns : List (String × String))
deriving DecidableEq

/-- The fields of a service the rewrite touches. -/
structure Service where
  container_name : Option String
  ports : Option (List PortEntry)
  networks : Option NetVal
deriving DecidableEq

/-- A top-level network definition. -/
inductive TopNet where
  | bridgeNamed (nm : String)
  | blob (b : String)
deriving DecidableEq

/-- A compose document. -/
structure Compose where
  services : Option (List (String × Service))
  networks : Option (List (String × TopNet))
deriving DecidableEq

/-- The mutable context of the rewrite: `port_mappings` (possibly `None`)
and the ports `get_available_port` would hand out, in order. -/
structure PortState where
  pm : Option (List (String × Nat))
  supply : List Nat
deriving DecidableEq

/-- Python dict lookup on the association-list model. -/
def lookupS (k : String) : List (String × Nat) → Option Nat
  | [] => none
  | (k2, v) :: rest => if k2 = k then some v else lookupS k rest

/-- Python dict assignment `m[k] = v` (update in place, else append). -/
def dictInsert (k : String) (v : Nat) : List (String × Nat) → List (String × Nat)
  | [] => [(k, v)]
  | (k2, v2) :: rest =>
    if k2 = k then (k2, v) :: rest else (k2, v2) :: dictInsert k v rest

/-- Python `s.split(":", 1)` when `":" in s` (else `none`). -/
def splitColon1 (s : String) : Option (String × String) :=
  match firstOcc [':'] s.data with
  | none => none
  | some i => some ((s.data.take i).asString, (s.data.drop (i + 1)).asString)

/-- The shared `else:` arm of the port-mapping branches (lines 189-199 and
205-214): draw a fresh external port, record it into `port_mappings` when
that dict exists, and keep the original entry when no port is available. -/
def procAutoAssign (st : PortState) (internal : String) (orig : PortEntry) :
    PortEntry × PortState :=
  match st.supply with
  | avail :: rest =>
    (.pstr (Nat.repr avail ++ ":" ++ internal),
      ⟨(st.pm).map (dictInsert internal avail), rest⟩)
  | [] => (orig, st)

/-- Body of the `for port_mapping in new_service_config["ports"]` loop
(lines 183-216). -/
def procPortEntry (st : PortState) : PortEntry → PortEntry × PortState
  | .pstr s =>
    match splitColon1 s with
    | some pr =>
      match st.pm with
      | some m =>
        match m, lookupS pr.2 m with
        | _ :: _, some v => (.pstr (Nat.repr v ++ ":" ++ pr.2), st)
        | _, _ => procAutoAssign st pr.2 (.pstr s)
      | none => procAutoAssign st pr.2 (.pstr s)
    | none => (.pstr s, st)
  | .pint n =>
    match st.pm with
    | some m =>
      match m, lookupS (Nat.repr n) m with
      | _ :: _, some v => (.pstr (Nat.repr v ++ ":" ++ Nat.repr n), st)
      | _, _ => procAutoAssign st (Nat.repr n) (.pint n)
    | none => procAutoAssign st (Nat.repr n) (.pint n)

/-- Stateful traversal of one `ports:` list. -/
def procPorts (st : PortState) : List PortEntry → List PortEntry × PortState
  | [] => ([], st)
  | pe :: rest =>
    let r1 := procPortEntry st pe
    let r2 := procPorts r1.2 rest
    (r1.1 :: r2.1, r2.2)

/-- Network-reference rewrite inside a service (lines 229-247): every
`ctfnet` becomes the dynamic network name. -/
def replaceNetVal (dyn : String) : NetVal → NetVal
  | .nlist ns => .nlist (ns.map fun net => if net = "ctfnet" then dyn else net)
  | .ndict ns => .ndict (ns.map fun p =>
      (if p.1 = "ctfnet" then dyn else p.1, p.2))

/-- Body of the service loop (lines 169-249): suffix the service name and
`container_name`, rewrite `ports:` (or inject bindings from a truthy
`port_mappings` when the service declares none, lines 218-226), rewrite
network references. -/
def procService (suffix dyn : String) (st : PortState) (name : String)
    (svc : Service) : (String × Service) × PortState :=
  let pr :=
    match svc.ports with
    | some ps =>
      let r := procPorts st ps
      (some r.1, r.2)
    | none =>
      match st.pm with
      | some (q :: qs) =>
        (some ((q :: qs).map fun (e : String × Nat) =>
          PortEntry.pstr (Nat.repr e.2 ++ ":" ++ e.1)), st)
      | _ => (none, st)
  ((name ++ "-" ++ suffix,
    ⟨svc.container_name.map (fun c => c ++ "-" ++ suffix), pr.1,
      svc.networks.map (replaceNetVal dyn)⟩), pr.2)

/-- Stateful traversal of the `services:` map (insertion order). -/
def procServices (suffix dyn : String) (st : PortState) :
    List (String × Service) → List (String × Service) × PortState
  | [] => ([], st)
  | (name, svc) :: rest =>
    let r1 := procService suffix dyn st name svc
    let r2 := procServices suffix dyn r1.2 rest
    (r1.1 :: r2.1, r2.2)

/-- Top-level `networks:` rewrite (lines 254-265): `ctfnet` becomes a fresh
internal bridge named after the dynamic network; everything else is kept. -/
def replaceTopNets (dyn : String) (ns : List (String × TopNet)) :
    List (String × TopNet) :=
  ns.map fun p => if p.1 = "ctfnet" then (dyn, TopNet.bridgeNamed dyn) else p

/-- Function `create_dynamic_docker_compose` (143-280) on the structural document
model (reading the YAML, and writing the temporary file next to the
original, are outside the model). -/
def create_dynamic_docker_compose (doc : Compose)
    (container_name_suffix dynamic_network_name : String) (st : PortState) :
    Compose × PortState :=
  let r :=
    match doc.services with
    | some svs =>
      let r := procServices container_name_suffix dynamic_network_name st svs
      (some r.1, r.2)
    | none => (none, st)
  (⟨r.1, doc.networks.map (replaceTopNets dynamic_network_name)⟩, r.2)

/-- Claim C4, counterexample: with two portless services and the non-empty
port map `{"80": 9000}`, the rewrite injects the binding `9000:80` into
*both* services — the second service of the output also gains a `ports:`
entry, contrary to the claim that only the first service does. -/
theorem C4_injects_into_every_service_counterexample :
    (create_dynamic_docker_compose
        ⟨some [("a", ⟨none, none, none⟩), ("b", ⟨none, none, none⟩)], none⟩
        "s" "net" ⟨some [("80", 9000)], []⟩).1.services =
      some [("a-s", ⟨none, some [.pstr "9000:80"], none⟩),
            ("b-s", ⟨none, some [.pstr "9000:80"], none⟩)] ∧
    (Service.mk none (some [.pstr "9000:80"]) none).ports ≠ none := by
  exact ⟨by decide, by decide⟩

/-- Claim C4, amended: for a document in which no service declares `ports:`
and a non-empty port map, the rewrite injects one binding
`{port_map[internal]}:{internal}` per port-map entry into *every* service of
the document (not only the first). -/
theorem C4_portless_services_all_gain_bindings (suffix dyn : String)
    (m : List (String × Nat)) (supply : List Nat)
    (svs : List (String × Service)) (nets : Option (List (String × TopNet)))
    (hm : m ≠ []) (hports : ∀ p ∈ svs, (Prod.snd p).ports = none) :
    (create_dynamic_docker_compose ⟨some svs, nets⟩ suffix dyn
        ⟨some m, supply⟩).1.services =
      some (svs.map fun p =>
        (p.1 ++ "-" ++ suffix,
          ⟨p.2.container_name.map (fun c => c ++ "-" ++ suffix),
            some (m.map fun e => PortEntry.pstr (Nat.repr e.2 ++ ":" ++ e.1)),
            p.2.networks.map (replaceNetVal dyn)⟩)) := by
  obtain ⟨q, qs, rfl⟩ : ∃ q qs, m = q :: qs := by
    cases m with
    | nil => exact absurd rfl hm
    | cons q qs => exact ⟨q, qs, rfl⟩
  have key : ∀ svs2 : List (String × Service),
      (∀ p ∈ svs2, (Prod.snd p).ports = none) →
      procServices suffix dyn ⟨some (q :: qs), supply⟩ svs2 =
        (svs2.map fun p =>
          (p.1 ++ "-" ++ suffix,
            ⟨p.2.container_name.map (fun c => c ++ "-" ++ suffix),
              some ((q :: qs).map fun e =>
                PortEntry.pstr (Nat.repr e.2 ++ ":" ++ e.1)),
              p.2.networks.map (replaceNetVal dyn)⟩),
          ⟨some (q :: qs), supply⟩) := by
    intro svs2
    induction svs2 with
    | nil => intro _; rfl
    | cons hd tl ih =>
      intro hall
      obtain ⟨name, svc⟩ := hd
      have hhd : svc.ports = none := hall _ (List.mem_cons_self _ _)
      rw [procServices, procService, hhd]
      dsimp only
      rw [ih fun p hp => hall p (List.mem_cons_of_mem _ hp)]
      rfl
  rw [create_dynamic_docker_compose]
  dsimp only
  rw [key svs hports]

/-- Witness for the amended C4 theorem at the counterexample document. -/
theorem C4_portless_services_all_gain_bindings_witness :
    (create_dynamic_docker_compose
        ⟨some [("a", ⟨none, none, none⟩), ("b", ⟨none, none, none⟩)], none⟩
        "s" "net" ⟨some [("80", 9000)], []⟩).1.services =
      some [("a-s", ⟨none, some [.pstr "9000:80"], none⟩),
            ("b-s", ⟨none, some [.pstr "9000:80"], none⟩)] := by
  rw [C4_portless_services_all_gain_bindings "s" "net" [("80", 9000)] []
    [("a", ⟨none, none, none⟩), ("b", ⟨none, none, none⟩)] none
    (by decide) (by decide)]
  decide

/-! ### C5: idempotence of the compose rewrite -/

/-- Claim C5, counterexample: rewriting an already-rewritten document with the
same suffix, network name and port map is *not* structurally equal to the
once-rewritten document: the suffix is appended to the service name again
(`web-s` becomes `web-s-s`). -/
theorem C5_rewrite_not_idempotent :
    (create_dynamic_docker_compose
        ⟨some [("web", ⟨none, none, none⟩)], none⟩ "s" "n"
        ⟨some [], []⟩).1.services =
      some [("web-s", ⟨none, none, none⟩)] ∧
    (create_dynamic_docker_compose
        (create_dynamic_docker_compose
          ⟨some [("web", ⟨none, none, none⟩)], none⟩ "s" "n" ⟨some [], []⟩).1
        "s" "n"
        (create_dynamic_docker_compose
          ⟨some [("web", ⟨none, none, none⟩)], none⟩ "s" "n" ⟨some [], []⟩).2).1.services =
      some [("web-s-s", ⟨none, none, none⟩)] ∧
    (create_dynamic_docker_compose
        (create_dynamic_docker_compose
          ⟨some [("web", ⟨none, none, none⟩)], none⟩ "s" "n" ⟨some [], []⟩).1
        "s" "n"
        (create_dynamic_docker_compose
          ⟨some [("web", ⟨none, none, none⟩)], none⟩ "s" "n" ⟨some [], []⟩).2).1 ≠
      (create_dynamic_docker_compose
        ⟨some [("web", ⟨none, none, none⟩)], none⟩ "s" "n" ⟨some [], []⟩).1 := by
  exact ⟨by decide, by decide, by decide⟩

theorem firstOcc_decomp {pat : List Char} :
    ∀ {s : List Char} {i : Nat}, firstOcc pat s = some i →
      s = s.take i ++ pat ++ s.drop (i + pat.length) := by
  intro s
  induction s with
  | nil =>
    intro i h
    by_cases hp : pat.isPrefixOf ([] : List Char)
    · have hpat : pat = [] := by
        cases pat with
        | nil => rfl
        | cons x xs => simp [List.isPrefixOf] at hp
      have h0 : i = 0 := by simpa [firstOcc, hp] using h.symm
      subst h0
      simp [hpat]
    · simp [firstOcc, hp] at h
  | cons c cs ih =>
    intro i h
    by_cases hp : pat.isPrefixOf (c :: cs)
    · have h0 : i = 0 := by simpa [firstOcc, hp] using h.symm
      subst h0
      have := List.prefix_iff_eq_append.mp (List.isPrefixOf_iff_prefix.mp hp)
      simpa using this.symm
    · obtain ⟨j, hj, rfl⟩ : ∃ j, firstOcc pat cs = some j ∧ i = j + 1 := by
        rcases ho : firstOcc pat cs with _ | j
        · simp [firstOcc, hp, ho] at h
        · refine ⟨j, rfl, ?_⟩
          simpa [firstOcc, hp, ho] using h.symm
      have := ih hj
      calc c :: cs = c :: (cs.take j ++ pat ++ cs.drop (j + pat.length)) := by
            rw [← this]
        _ = (c :: cs).take (j + 1) ++ pat ++ (c :: cs).drop (j + 1 + pat.length) := by
            simp [List.take_succ_cons, List.drop_succ_cons]
            rw [show j + 1 + pat.length = (j + pat.length) + 1 by omega]
            simp [List.drop_succ_cons]

theorem splitColon1_recompose {s a b : String} (h : splitColon1 s = some (a, b)) :
    s = a ++ ":" ++ b := by
  rw [splitColon1] at h
  rcases hf : firstOcc [':'] s.data with _ | i
  · rw [hf] at h; exact absurd h (by simp)
  · rw [hf] at h
    injection h with h
    have ha : (s.data.take i).asString = a := congrArg Prod.fst h
    have hb : (s.data.drop (i + 1)).asString = b := congrArg Prod.snd h
    have hd := firstOcc_decomp hf
    apply String.ext
    have hdata : ∀ l : List Char, (List.asString l).data = l := fun _ => rfl
    rw [← ha, ← hb, String.data_append, String.data_append, hdata, hdata]
    simpa using hd

/-- A port entry that the rewrite maps to itself under port map `m`: an
`"external:internal"` string whose internal port `m` maps back to that very
external port. -/
def stableEntry (m : List (String × Nat)) : PortEntry → Bool
  | .pstr s =>
    match splitColon1 s with
    | some pr =>
      match lookupS pr.2 m with
      | some v => Nat.repr v == pr.1
      | none => false
    | none => false
  | .pint _ => false

/-- Every service of the document declares a `ports:` list all of whose
entries are stable under `m`. -/
def servicesStable (m : List (String × Nat)) (c : Compose) : Bool :=
  match c.services with
  | some svs => svs.all fun p =>
      match p.2.ports with
      | some ps => ps.all (stableEntry m)
      | none => false
  | none => true

/-- Modelled from the amended claim: append the suffix once more to a
service's name and `container_name`, leaving ports and networks alone. -/
def suffixRenameEntry (suffix : String) (p : String × Service) :
    String × Service :=
  (p.1 ++ "-" ++ suffix,
    ⟨p.2.container_name.map (fun c => c ++ "-" ++ suffix), p.2.ports,
      p.2.networks⟩)

/-- Modelled from the amended claim: the whole-document rename. -/
def suffixRenameCompose (suffix : String) (c : Compose) : Compose :=
  ⟨c.services.map (List.map (suffixRenameEntry suffix)), c.networks⟩

theorem replaceNetVal_idem (dyn : String) (nv : NetVal) :
    replaceNetVal dyn (replaceNetVal dyn nv) = replaceNetVal dyn nv := by
  cases nv with
  | nlist ns =>
    simp only [replaceNetVal, List.map_map]
    refine congrArg _ (List.map_congr_left fun x _ => ?_)
    by_cases hx : x = "ctfnet" <;> by_cases hd : dyn = "ctfnet" <;>
      simp [Function.comp, hx, hd]
  | ndict ns =>
    simp only [replaceNetVal, List.map_map]
    refine congrArg _ (List.map_congr_left fun p _ => ?_)
    by_cases hx : p.1 = "ctfnet" <;> by_cases hd : dyn = "ctfnet" <;>
      simp [Function.comp, hx, hd]

theorem replaceTopNets_idem (dyn : String) (ns : List (String × TopNet)) :
    replaceTopNets dyn (replaceTopNets dyn ns) = replaceTopNets dyn ns := by
  simp only [replaceTopNets, List.map_map]
  refine List.map_congr_left fun p _ => ?_
  by_cases hx : p.1 = "ctfnet" <;> by_cases hd : dyn = "ctfnet" <;>
    simp [Function.comp, hx, hd]

theorem procPortEntry_of_stable (q : String × Nat) (qs : List (String × Nat))
    (sup : List Nat) (pe : PortEntry) (h : stableEntry (q :: qs) pe = true) :
    procPortEntry ⟨some (q :: qs), sup⟩ pe = (pe, ⟨some (q :: qs), sup⟩) := by
  cases pe with
  | pint n => simp [stableEntry] at h
  | pstr s =>
    rcases hsp : splitColon1 s with _ | ⟨a, b⟩
    · rw [stableEntry, hsp] at h; exact absurd h (by simp)
    · rcases hlk : lookupS b (q :: qs) with _ | v
      · rw [stableEntry, hsp] at h
        dsimp only at h
        rw [hlk] at h
        exact absurd h (by simp)
      · have hv : Nat.repr v = a := by
          rw [stableEntry, hsp] at h
          dsimp only at h
          rw [hlk] at h
          simpa using h
        have hs : s = a ++ ":" ++ b := splitColon1_recompose hsp
        rw [procPortEntry, hsp]
        dsimp only
        rw [hlk]
        show (PortEntry.pstr (Nat.repr v ++ ":" ++ b),
          (⟨some (q :: qs), sup⟩ : PortState)) = _
        rw [hv, ← hs]

theorem procPorts_of_stable (q : String × Nat) (qs : List (String × Nat))
    (sup : List Nat) :
    ∀ ps : List PortEntry, (∀ pe ∈ ps, stableEntry (q :: qs) pe = true) →
      procPorts ⟨some (q :: qs), sup⟩ ps = (ps, ⟨some (q :: qs), sup⟩) := by
  intro ps
  induction ps with
  | nil => intro _; rfl
  | cons pe rest ih =>
    intro hall
    rw [procPorts, procPortEntry_of_stable q qs sup pe
      (hall _ (List.mem_cons_self _ _))]
    dsimp only
    rw [ih fun x hx => hall x (List.mem_cons_of_mem _ hx)]

theorem procServices_networks_normalized (suffix dyn : String) :
    ∀ (svs : List (String × Service)) (st : PortState)
      (p : String × Service), p ∈ (procServices suffix dyn st svs).1 →
      Option.map (replaceNetVal dyn) p.2.networks = p.2.networks := by
  intro svs
  induction svs with
  | nil => intro st p hp; simp [procServices] at hp
  | cons hd tl ih =>
    intro st p hp
    obtain ⟨name, svc⟩ := hd
    rw [procServices] at hp
    rcases List.mem_cons.mp hp with h | h
    · subst h
      rw [procService]
      dsimp only
      cases hnv : svc.networks with
      | none => rfl
      | some nv => simp [replaceNetVal_idem]
    · exact ih _ _ h

theorem procServices_of_stable (suffix dyn : String) (q : String × Nat)
    (qs : List (String × Nat)) (sup2 : List Nat) :
    ∀ svs1 : List (String × Service),
      (∀ p ∈ svs1, ∃ ps, p.2.ports = some ps ∧
        ∀ pe ∈ ps, stableEntry (q :: qs) pe = true) →
      (∀ p ∈ svs1, Option.map (replaceNetVal dyn) p.2.networks = p.2.networks) →
      procServices suffix dyn ⟨some (q :: qs), sup2⟩ svs1 =
        (svs1.map (suffixRenameEntry suffix), ⟨some (q :: qs), sup2⟩) := by
  intro svs1
  induction svs1 with
  | nil => intro _ _; rfl
  | cons hd tl ih =>
    intro hstable hnets
    obtain ⟨name, svc⟩ := hd
    obtain ⟨ps, hps, hall⟩ := hstable _ (List.mem_cons_self _ _)
    rw [procServices, procService, hps]
    dsimp only
    rw [procPorts_of_stable q qs sup2 ps hall]
    dsimp only
    rw [ih (fun p hp => hstable p (List.mem_cons_of_mem _ hp))
      (fun p hp => hnets p (List.mem_cons_of_mem _ hp))]
    dsimp only
    rw [List.map_cons]
    have hnet := hnets _ (List.mem_cons_self _ _)
    rw [suffixRenameEntry]
    dsimp only at hnet ⊢
    rw [hnet, hps]

/-- Claim C5, amended: under the updated port map produced by the first
rewrite (assumed non-empty, with every port entry of the once-rewritten
document a stable `external:internal` binding of that map), applying the
rewrite again with the same suffix and network name changes only the service
names and container names — it appends the suffix to them once more — and
leaves every `ports:` list, every service `networks:` reference and the
top-level `networks:` section unchanged. -/
theorem C5_second_rewrite_appends_suffix_only (suffix dyn : String)
    (doc : Compose) (st0 : PortState) (m1 : List (String × Nat))
    (sup2 : List Nat)
    (hm : ((create_dynamic_docker_compose doc suffix dyn st0).2).pm = some m1)
    (hm1 : m1 ≠ [])
    (hstable : servicesStable m1
      (create_dynamic_docker_compose doc suffix dyn st0).1 = true) :
    (create_dynamic_docker_compose
        (create_dynamic_docker_compose doc suffix dyn st0).1 suffix dyn
        ⟨some m1, sup2⟩).1 =
      suffixRenameCompose suffix
        (create_dynamic_docker_compose doc suffix dyn st0).1 := by
  obtain ⟨q, qs, rfl⟩ : ∃ q qs, m1 = q :: qs := by
    cases m1 with
    | nil => exact absurd rfl hm1
    | cons q qs => exact ⟨q, qs, rfl⟩
  rcases doc with ⟨osvs, onets⟩
  cases osvs with
  | none =>
    show (⟨none,
        Option.map (replaceTopNets dyn) (Option.map (replaceTopNets dyn) onets)⟩ :
        Compose) = ⟨none, Option.map (replaceTopNets dyn) onets⟩
    cases onets with
    | none => rfl
    | some ns => simp [replaceTopNets_idem]
  | some svs =>
    have hall := List.all_eq_true.mp
      (show (procServices suffix dyn st0 svs).1.all (fun p =>
          match p.2.ports with
          | some ps => ps.all (stableEntry (q :: qs))
          | none => false) = true from hstable)
    have hstable2 : ∀ p ∈ (procServices suffix dyn st0 svs).1,
        ∃ ps, p.2.ports = some ps ∧
          ∀ pe ∈ ps, stableEntry (q :: qs) pe = true := by
      intro p hp
      have := hall p hp
      rcases hps : p.2.ports with _ | ps
      · rw [hps] at this; exact absurd this (by simp)
      · rw [hps] at this
        exact ⟨ps, rfl, fun pe hpe => (List.all_eq_true.mp this) pe hpe⟩
    show (⟨some (procServices suffix dyn ⟨some (q :: qs), sup2⟩
          (procServices suffix dyn st0 svs).1).1,
        Option.map (replaceTopNets dyn) (Option.map (replaceTopNets dyn) onets)⟩ :
        Compose) =
      ⟨some ((procServices suffix dyn st0 svs).1.map (suffixRenameEntry suffix)),
        Option.map (replaceTopNets dyn) onets⟩
    rw [procServices_of_stable suffix dyn q qs sup2 _ hstable2
      (fun p hp => procServices_networks_normalized suffix dyn svs st0 p hp)]
    cases onets with
    | none => rfl
    | some ns => simp [replaceTopNets_idem]

/-- Witness for the amended C5 theorem: a one-service document with a port
binding, a `ctfnet` reference and a container name; the second rewrite only
renames. -/
theorem C5_second_rewrite_appends_suffix_only_witness :
    (create_dynamic_docker_compose
        (create_dynamic_docker_compose
          ⟨some [("web", ⟨some "c", some [.pstr "8080:80"],
            some (.nlist ["ctfnet"])⟩)], some [("ctfnet", .blob "x")]⟩
          "s" "dynnet" ⟨some [("80", 9000)], []⟩).1
        "s" "dynnet" ⟨some [("80", 9000)], []⟩).1 =
      ⟨some [("web-s-s", ⟨some "c-s-s", some [.pstr "9000:80"],
        some (.nlist ["dynnet"])⟩)],
        some [("dynnet", .bridgeNamed "dynnet")]⟩ := by
  rw [C5_second_rewrite_appends_suffix_only "s" "dynnet"
    ⟨some [("web", ⟨some "c", some [.pstr "8080:80"],
      some (.nlist ["ctfnet"])⟩)], some [("ctfnet", .blob "x")]⟩
    ⟨some [("80", 9000)], []⟩ [("80", 9000)] []
    (by decide) (by decide) (by decide)]
  decide

/-! ## Decimal-representation facts used for the server-description claim

`Nat.repr` is the decimal numeral (core Lean's `toDigitsCore`); the claims
about port numbers appearing in strings need that its characters are digits
and that it is injective. -/

theorem digitChar_isDigit {m : Nat} (hm : m < 10) :
    (Nat.digitChar m).isDigit = true := by
  interval_cases m <;> decide

theorem toDigitsCore_all_digits :
    ∀ (fuel n : Nat) (acc : List Char), (∀ c ∈ acc, c.isDigit = true) →
      ∀ c ∈ Nat.toDigitsCore 10 fuel n acc, c.isDigit = true := by
  intro fuel
  induction fuel with
  | zero => intro n acc hacc c hc; exact hacc c hc
  | succ f ih =>
    intro n acc hacc c hc
    rw [Nat.toDigitsCore] at hc
    have hd : ∀ x ∈ (Nat.digitChar (n % 10) :: acc), x.isDigit = true := by
      intro x hx
      rcases List.mem_cons.mp hx with h | h
      · subst h; exact digitChar_isDigit (Nat.mod_lt _ (by norm_num))
      · exact hacc x h
    by_cases hz : n / 10 = 0
    · rw [if_pos hz] at hc
      exact hd c hc
    · rw [if_neg hz] at hc
      exact ih (n / 10) _ hd c hc

theorem repr_all_digits (n : Nat) :
    ∀ c ∈ (Nat.repr n).data, c.isDigit = true := by
  intro c hc
  exact toDigitsCore_all_digits (n + 1) n [] (by simp) c hc

theorem toDigitsCore_fuel_irrelevant :
    ∀ (f1 f2 n : Nat) (acc : List Char), n < 10 ^ f1 → n < 10 ^ f2 →
      0 < f1 → 0 < f2 →
      Nat.toDigitsCore 10 f1 n acc = Nat.toDigitsCore 10 f2 n acc := by
  intro f1
  induction f1 with
  | zero => intro f2 n acc _ _ h1 _; exact absurd h1 (by omega)
  | succ g1 ih =>
    intro f2 n acc hn1 hn2 _ hf2
    cases f2 with
    | zero => exact absurd hf2 (by omega)
    | succ g2 =>
      rw [Nat.toDigitsCore, Nat.toDigitsCore]
      by_cases hz : n / 10 = 0
      · rw [if_pos hz, if_pos hz]
      · rw [if_neg hz, if_neg hz]
        have hge : 10 ≤ n := by
          by_contra hlt
          exact hz (Nat.div_eq_of_lt (by omega))
        have hg1 : 0 < g1 := by
          by_contra h0
          have : g1 = 0 := by omega
          subst this
          simp at hn1
          omega
        have hg2 : 0 < g2 := by
          by_contra h0
          have : g2 = 0 := by omega
          subst this
          simp at hn2
          omega
        exact ih g2 (n / 10) _
          (Nat.nat_repr_len_aux n 10 g1 (by norm_num) hn1)
          (Nat.nat_repr_len_aux n 10 g2 (by norm_num) hn2) hg1 hg2

theorem toDigitsCore_acc_append :
    ∀ (fuel n : Nat) (acc : List Char),
      Nat.toDigitsCore 10 fuel n acc = Nat.toDigitsCore 10 fuel n [] ++ acc := by
  intro fuel
  induction fuel with
  | zero => intro n acc; rfl
  | succ f ih =>
    intro n acc
    rw [Nat.toDigitsCore]
    conv_rhs => rw [Nat.toDigitsCore]
    by_cases hz : n / 10 = 0
    · rw [if_pos hz, if_pos hz]; rfl
    · rw [if_neg hz, if_neg hz, ih (n / 10) (Nat.digitChar (n % 10) :: acc),
        ih (n / 10) [Nat.digitChar (n % 10)], List.append_assoc]
      rfl

theorem toDigits_lt_ten {n : Nat} (h : n < 10) :
    Nat.toDigits 10 n = [Nat.digitChar n] := by
  rw [Nat.toDigits, Nat.toDigitsCore]
  rw [if_pos (Nat.div_eq_of_lt h), Nat.mod_eq_of_lt h]

theorem toDigits_ge_ten {n : Nat} (h : 10 ≤ n) :
    Nat.toDigits 10 n =
      Nat.toDigits 10 (n / 10) ++ [Nat.digitChar (n % 10)] := by
  have hz : n / 10 ≠ 0 := by
    intro h0
    have := Nat.div_eq_of_lt (show n < 10 by omega)
    omega
  rw [Nat.toDigits, Nat.toDigitsCore]
  rw [if_neg hz, toDigitsCore_acc_append n (n / 10) [Nat.digitChar (n % 10)]]
  congr 1
  rw [Nat.toDigits]
  refine toDigitsCore_fuel_irrelevant n (n / 10 + 1) (n / 10) [] ?_ ?_ ?_ ?_
  · calc n / 10 ≤ n := Nat.div_le_self n 10
      _ < 10 ^ n := Nat.lt_pow_self (by norm_num) n
  · calc n / 10 < 10 ^ (n / 10) := Nat.lt_pow_self (by norm_num) _
      _ < 10 ^ (n / 10 + 1) := Nat.pow_lt_pow_succ (by norm_num)
  · omega
  · omega

/-- Value of a decimal digit character. -/
def digitVal (c : Char) : Nat := c.toNat - '0'.toNat

/-- Read a digit string back as a number (left fold). -/
def parseNum (l : List Char) : Nat :=
  l.foldl (fun a c => a * 10 + digitVal c) 0

theorem digitVal_digitChar {m : Nat} (hm : m < 10) :
    digitVal (Nat.digitChar m) = m := by
  interval_cases m <;> decide

theorem foldl_toDigits (n : Nat) : ∀ init : Nat,
    (Nat.toDigits 10 n).foldl (fun a c => a * 10 + digitVal c) init =
      init * 10 ^ (Nat.toDigits 10 n).length + n := by
  induction n using Nat.strong_induction_on with
  | _ n ih =>
    intro init
    by_cases h : n < 10
    · rw [toDigits_lt_ten h]
      simp [digitVal_digitChar h]
    · push_neg at h
      rw [toDigits_ge_ten h, List.foldl_append,
        ih (n / 10) (Nat.div_lt_self (by omega) (by norm_num)) init]
      simp only [List.foldl_cons, List.foldl_nil, List.length_append,
        List.length_cons, List.length_nil]
      rw [digitVal_digitChar (Nat.mod_lt _ (by norm_num))]
      rw [pow_succ]
      have : 10 * (n / 10) + n % 10 = n := Nat.div_add_mod n 10
      ring_nf
      omega

theorem parseNum_repr (n : Nat) : parseNum (Nat.repr n).data = n := by
  have hdata : (Nat.repr n).data = Nat.toDigits 10 n := rfl
  rw [parseNum, hdata, foldl_toDigits n 0]
  simp

theorem repr_injective {a b : Nat} (h : Nat.repr a = Nat.repr b) : a = b := by
  have := congrArg (fun s : String => parseNum s.data) h
  simpa [parseNum_repr] using this

/-! ### Maximal digit runs

`digitTokens l` is the list of maximal runs of decimal digits in `l`; "the
string mentions the port number n" is read as "`Nat.repr n` is one of the
maximal digit runs" (an occurrence inside a longer number, such as `80`
inside `8080`, is not a mention of port 80). -/

/-- Maximal digit runs of a character list, in order. -/
def digitTokens : List Char → List (List Char)
  | [] => []
  | c :: cs =>
    if c.isDigit then
      match cs with
      | [] => [[c]]
      | d :: _ =>
        if d.isDigit then
          match digitTokens cs with
          | t :: ts => (c :: t) :: ts
          | [] => [[c]]
        else [c] :: digitTokens cs
    else digitTokens cs

theorem digitTokens_cons (c : Char) (cs : List Char) :
    digitTokens (c :: cs) =
      if c.isDigit then
        match cs with
        | [] => [[c]]
        | d :: _ =>
          if d.isDigit then
            match digitTokens cs with
            | t :: ts => (c :: t) :: ts
            | [] => [[c]]
          else [c] :: digitTokens cs
      else digitTokens cs := rfl

theorem digitTokens_nil : digitTokens [] = [] := rfl

theorem digitTokens_cons_nondigit {c : Char} (hc : c.isDigit = false)
    (l : List Char) : digitTokens (c :: l) = digitTokens l := by
  rw [digitTokens_cons]
  simp [hc]

theorem digitTokens_singleton_digit {c : Char} (hc : c.isDigit = true) :
    digitTokens [c] = [[c]] := by
  rw [digitTokens_cons]
  simp [hc]

theorem digitTokens_cons2_dd {c d : Char} {cs t : List Char}
    {ts : List (List Char)} (hc : c.isDigit = true) (hd : d.isDigit = true)
    (h : digitTokens (d :: cs) = t :: ts) :
    digitTokens (c :: d :: cs) = (c :: t) :: ts := by
  rw [digitTokens_cons]
  simp [hc, hd, h]

theorem digitTokens_cons2_dn {c d : Char} {cs : List Char}
    (hc : c.isDigit = true) (hd : d.isDigit = false) :
    digitTokens (c :: d :: cs) = [c] :: digitTokens (d :: cs) := by
  rw [digitTokens_cons]
  simp [hc, hd]

theorem digitTokens_head_digit :
    ∀ (l : List Char) (c : Char), c.isDigit = true →
      ∃ t ts, digitTokens (c :: l) = (c :: t) :: ts := by
  intro l
  induction l with
  | nil => intro c hc; exact ⟨[], [], digitTokens_singleton_digit hc⟩
  | cons d l2 ih =>
    intro c hc
    by_cases hd : d.isDigit
    · obtain ⟨t, ts, ht⟩ := ih d hd
      exact ⟨d :: t, ts, digitTokens_cons2_dd hc hd ht⟩
    · exact ⟨[], digitTokens (d :: l2), digitTokens_cons2_dn hc (by simpa using hd)⟩

theorem digitTokens_append_barrier {c : Char} (hc : c.isDigit = false) :
    ∀ (a b : List Char),
      digitTokens (a ++ c :: b) = digitTokens a ++ digitTokens (c :: b) := by
  intro a
  induction a with
  | nil => intro b; simp [digitTokens_nil]
  | cons x a2 ih =>
    intro b
    rw [List.cons_append]
    by_cases hx : x.isDigit
    · cases a2 with
      | nil =>
        rw [List.nil_append, digitTokens_cons2_dn hx hc,
          digitTokens_singleton_digit hx]
        simp
      | cons y a3 =>
        rw [List.cons_append]
        by_cases hy : y.isDigit
        · obtain ⟨t, ts, ht⟩ := digitTokens_head_digit a3 y hy
          have ht2 : digitTokens (y :: (a3 ++ c :: b)) =
              (y :: t) :: (ts ++ digitTokens (c :: b)) := by
            have hih := ih b
            rw [List.cons_append] at hih
            rw [hih, ht]
            simp
          rw [digitTokens_cons2_dd hx hy ht2, digitTokens_cons2_dd hx hy ht]
          simp
        · have hy2 : y.isDigit = false := by simpa using hy
          have hih := ih b
          rw [List.cons_append] at hih
          rw [digitTokens_cons2_dn hx hy2, digitTokens_cons2_dn hx hy2, hih]
          simp
    · have hx2 : x.isDigit = false := by simpa using hx
      rw [digitTokens_cons_nondigit hx2, digitTokens_cons_nondigit hx2, ih b]

theorem digitTokens_all_digits :
    ∀ l : List Char, l ≠ [] → (∀ c ∈ l, c.isDigit = true) →
      digitTokens l = [l] := by
  intro l
  induction l with
  | nil => intro h; exact absurd rfl h
  | cons c l2 ih =>
    intro _ hall
    have hc : c.isDigit = true := hall c (List.mem_cons_self _ _)
    cases l2 with
    | nil => exact digitTokens_singleton_digit hc
    | cons d l3 =>
      have hd : d.isDigit = true := hall d (by simp)
      have hrec := ih (by simp) (fun x hx => hall x (List.mem_cons_of_mem _ hx))
      exact digitTokens_cons2_dd hc hd hrec

/-! ### Infix barrier lemmas -/

theorem infix_split_at_char {p x y : List Char} {c : Char} (hc : c ∉ p)
    (h : p <:+: x ++ c :: y) : p <:+: x ∨ p <:+: y := by
  obtain ⟨s, t, hst⟩ := h
  rw [List.append_assoc] at hst
  rcases List.append_eq_append_iff.mp hst with ⟨a, ha1, ha2⟩ | ⟨a, ha1, ha2⟩
  · -- x = s ++ a and p ++ t = a ++ (c :: y)
    rcases List.append_eq_append_iff.mp ha2 with ⟨b, hb1, hb2⟩ | ⟨b, hb1, hb2⟩
    · -- a = p ++ b: p lies inside x
      refine Or.inl ⟨s, b, ?_⟩
      rw [ha1, hb1, List.append_assoc]
    · -- p = a ++ b and c :: y = b ++ t
      cases b with
      | nil =>
        rw [List.append_nil] at hb1
        refine Or.inl ⟨s, [], ?_⟩
        rw [ha1, hb1, List.append_nil]
      | cons b0 b2 =>
        rw [List.cons_append] at hb2
        injection hb2 with h1 _
        refine absurd ?_ hc
        rw [hb1, ← h1]
        exact List.mem_append_right a (List.mem_cons_self c b2)
  · -- s = x ++ a and c :: y = a ++ (p ++ t)
    cases a with
    | nil =>
      rw [List.nil_append] at ha2
      cases p with
      | nil => exact Or.inr ⟨[], y, by simp⟩
      | cons ph pt =>
        rw [List.cons_append] at ha2
        injection ha2 with h1 _
        refine absurd ?_ hc
        rw [h1]
        exact List.mem_cons_self ph pt
    | cons a0 a2 =>
      rw [List.cons_append] at ha2
      injection ha2 with _ h2
      refine Or.inr ⟨a2, t, ?_⟩
      rw [List.append_assoc]
      exact h2.symm

theorem infix_absorb_left {p : List Char} (hp : p ≠ []) :
    ∀ (w z : List Char), (∀ ch ∈ w, ch ∉ p) → p <:+: w ++ z → p <:+: z := by
  intro w
  induction w with
  | nil => intro z _ h; simpa using h
  | cons ch w2 ih =>
    intro z hw h
    rw [List.cons_append] at h
    have hsplit := infix_split_at_char (hw ch (List.mem_cons_self _ _))
      (show p <:+: [] ++ ch :: (w2 ++ z) by simpa using h)
    rcases hsplit with h2 | h2
    · obtain ⟨s, t, hst⟩ := h2
      have h3 := List.append_eq_nil.mp hst
      exact absurd (List.append_eq_nil.mp h3.1).2 hp
    · exact ih z (fun x hx => hw x (List.mem_cons_of_mem _ hx)) h2

theorem infix_step {p w2 : List Char} {c : Char}
    {z : List Char} (hc : c ∉ p) (hw : ¬ p <:+: w2) :
    p <:+: (w2 ++ [c]) ++ z → p <:+: z := by
  intro h
  rw [List.append_assoc, List.singleton_append] at h
  rcases infix_split_at_char hc h with h2 | h2
  · exact absurd h2 hw
  · exact h2

/-! ## `InstanceBuilder.set_server_description`
(`sweagent/environment/utils.py`, 1174-1197) and
`update_server_description_with_port_mapping` (1323-1342)

`category` and the optional `proto` come from the challenge dict; the
`external_port` parameter is part of the signature but — deliberately, per
the comment on lines 1186-1188 — never used in the body. -/

/-- Method `set_server_description` (1174-1197). -/
def set_server_description (category : String) (proto : Option String)
    (server_name : Option String) (port : Option Nat)
    (external_port : Option Nat) : String :=
  match server_name, port with
  | some name, some p =>
    if (category = "web" ∨ category = "misc") ∧ proto ≠ some "nc" then
      "The challenge web server is running on `" ++ name ++ "` port `" ++
        Nat.repr p ++
        "` and you can access it from within the container environment using `curl http://" ++
        name ++ ":" ++ Nat.repr p ++ "`."
    else
      "The challenge server is running on `" ++ name ++ "` port `" ++
        Nat.repr p ++
        "` and you can access it from within the container environment using `connect_start " ++
        name ++ " " ++ Nat.repr p ++ "`."
  | _, _ => ""

/-- Method `update_server_description_with_port_mapping` (1323-1342): when the
challenge's internal port is a key of the port map, the description is
rebuilt by `set_server_description(server_name, internal_port,
external_port)` — still around the *internal* port. -/
def update_server_description_with_port_mapping (category : String)
    (proto : Option String) (server_name : Option String) (port : Option Nat)
    (port_mappings : List (String × Nat)) : Option String :=
  match port with
  | some p =>
    match lookupS (Nat.repr p) port_mappings with
    | some ext => some (set_server_description category proto server_name
        (some p) (some ext))
    | none => none
  | none => none

theorem repr_data_ne_nil (n : Nat) : (Nat.repr n).data ≠ [] := by
  have hdata : (Nat.repr n).data = Nat.toDigits 10 n := rfl
  rw [hdata]
  by_cases h : n < 10
  · rw [toDigits_lt_ten h]; simp
  · rw [toDigits_ge_ten (by omega)]; simp

theorem not_infix_of_all_digits {w : List Char}
    (hall : ∀ c ∈ w, c.isDigit = true) : ¬ ("localhost".data <:+: w) := by
  intro h
  have hl : ('l' : Char) ∈ "localhost".data := by decide
  have := hall 'l' (h.subset hl)
  exact absurd this (by decide)

theorem curl_desc_data (name : String) (p : Nat) :
    ("The challenge web server is running on `" ++ name ++ "` port `" ++
        Nat.repr p ++
        "` and you can access it from within the container environment using `curl http://" ++
        name ++ ":" ++ Nat.repr p ++ "`.").data =
      "The challenge web server is running on ".data ++ '`' ::
        (name.data ++ '`' :: (" port ".data ++ '`' :: ((Nat.repr p).data ++
          '`' :: (" and you can access it from within the container environment using ".data ++
          '`' :: ("curl http:/".data ++ '/' :: (name.data ++ ':' ::
          ((Nat.repr p).data ++ '`' :: ".".data))))))) := by
  have e1 : ("The challenge web server is running on `" : String).data =
      "The challenge web server is running on ".data ++ ['`'] := by decide
  have e2 : ("` port `" : String).data = '`' :: (" port ".data ++ ['`']) := by
    decide
  have e3 : ("` and you can access it from within the container environment using `curl http://" : String).data =
      '`' :: (" and you can access it from within the container environment using ".data ++
        '`' :: ("curl http:/".data ++ ['/'])) := by decide
  have e4 : ("`." : String).data = '`' :: ".".data := by decide
  have e5 : (":" : String).data = [':'] := by decide
  simp only [String.data_append, e1, e2, e3, e4, e5, List.append_assoc,
    List.cons_append, List.singleton_append, List.nil_append]

theorem connect_desc_data (name : String) (p : Nat) :
    ("The challenge server is running on `" ++ name ++ "` port `" ++
        Nat.repr p ++
        "` and you can access it from within the container environment using `connect_start " ++
        name ++ " " ++ Nat.repr p ++ "`.").data =
      "The challenge server is running on ".data ++ '`' ::
        (name.data ++ '`' :: (" port ".data ++ '`' :: ((Nat.repr p).data ++
          '`' :: (" and you can access it from within the container environment using ".data ++
          '`' :: ("connect_start".data ++ ' ' :: (name.data ++ ' ' ::
          ((Nat.repr p).data ++ '`' :: ".".data))))))) := by
  have e1 : ("The challenge server is running on `" : String).data =
      "The challenge server is running on ".data ++ ['`'] := by decide
  have e2 : ("` port `" : String).data = '`' :: (" port ".data ++ ['`']) := by
    decide
  have e3 : ("` and you can access it from within the container environment using `connect_start " : String).data =
      '`' :: (" and you can access it from within the container environment using ".data ++
        '`' :: ("connect_start".data ++ [' '])) := by decide
  have e4 : ("`." : String).data = '`' :: ".".data := by decide
  have e5 : (" " : String).data = [' '] := by decide
  simp only [String.data_append, e1, e2, e3, e4, e5, List.append_assoc,
    List.cons_append, List.singleton_append, List.nil_append]

/-- Claim C1: for every call with a non-`None` alias and internal port (an
alias that does not itself mention `localhost` or carry the external port as
a maximal digit run, and an external port different from the internal one):
the description contains the alias and the internal port; it never contains
the literal `localhost`; it never mentions the external port (as a maximal
digit run); for category `web`/`misc` with proto ≠ `nc` it embeds
`curl http://{alias}:{internal_port}`, otherwise
`connect_start {alias} {internal_port}`; it does not depend on the
`external_port` argument at all; and the port-mapping update rebuilds the
very same internal-port description. -/
theorem C1_server_description_internal_only (category : String)
    (proto : Option String) (name : String) (p ext : Nat)
    (hname_lh : ¬ ("localhost".data <:+: name.data))
    (hext_ne : ext ≠ p)
    (hext_name : (Nat.repr ext).data ∉ digitTokens name.data) :
    (name.data <:+: (set_server_description category proto (some name) (some p)
        (some ext)).data) ∧
    ((Nat.repr p).data ∈ digitTokens
      (set_server_description category proto (some name) (some p)
        (some ext)).data) ∧
    ¬ ("localhost".data <:+: (set_server_description category proto (some name)
        (some p) (some ext)).data) ∧
    ((Nat.repr ext).data ∉ digitTokens
      (set_server_description category proto (some name) (some p)
        (some ext)).data) ∧
    (((category = "web" ∨ category = "misc") ∧ proto ≠ some "nc") →
      ("curl http://" ++ name ++ ":" ++ Nat.repr p).data <:+:
        (set_server_description category proto (some name) (some p)
          (some ext)).data) ∧
    (¬((category = "web" ∨ category = "misc") ∧ proto ≠ some "nc") →
      ("connect_start " ++ name ++ " " ++ Nat.repr p).data <:+:
        (set_server_description category proto (some name) (some p)
          (some ext)).data) ∧
    (∀ ext2 : Nat,
      set_server_description category proto (some name) (some p) (some ext2) =
        set_server_description category proto (some name) (some p)
          (some ext)) ∧
    (∀ (pm : List (String × Nat)) (ext3 : Nat),
      lookupS (Nat.repr p) pm = some ext3 →
      update_server_description_with_port_mapping category proto (some name)
          (some p) pm =
        some (set_server_description category proto (some name) (some p)
          (some ext))) := by
  have hq : ('`' : Char) ∉ "localhost".data := by decide
  have hslm : ('/' : Char) ∉ "localhost".data := by decide
  have hcom : (':' : Char) ∉ "localhost".data := by decide
  have hspm : (' ' : Char) ∉ "localhost".data := by decide
  have hbq : ('`' : Char).isDigit = false := by decide
  have hsl : ('/' : Char).isDigit = false := by decide
  have hco : (':' : Char).isDigit = false := by decide
  have hsp : (' ' : Char).isDigit = false := by decide
  by_cases hweb : (category = "web" ∨ category = "misc") ∧ proto ≠ some "nc"
  · have hd : ∀ e2 : Nat,
        set_server_description category proto (some name) (some p) (some e2) =
          "The challenge web server is running on `" ++ name ++ "` port `" ++
            Nat.repr p ++
            "` and you can access it from within the container environment using `curl http://" ++
            name ++ ":" ++ Nat.repr p ++ "`." := by
      intro e2
      simp only [set_server_description]
      rw [if_pos hweb]
    have hdata : (set_server_description category proto (some name) (some p)
        (some ext)).data =
        "The challenge web server is running on ".data ++ '`' ::
          (name.data ++ '`' :: (" port ".data ++ '`' :: ((Nat.repr p).data ++
            '`' :: (" and you can access it from within the container environment using ".data ++
            '`' :: ("curl http:/".data ++ '/' :: (name.data ++ ':' ::
            ((Nat.repr p).data ++ '`' :: ".".data))))))) := by
      rw [hd ext]
      exact curl_desc_data name p
    have hdt : digitTokens (set_server_description category proto (some name)
        (some p) (some ext)).data =
        digitTokens name.data ++ ((Nat.repr p).data ::
          (digitTokens name.data ++ [(Nat.repr p).data])) := by
      rw [hdata]
      rw [digitTokens_append_barrier hbq,
        show digitTokens ("The challenge web server is running on ".data) = []
          by decide,
        List.nil_append, digitTokens_cons_nondigit hbq,
        digitTokens_append_barrier hbq, digitTokens_cons_nondigit hbq,
        digitTokens_append_barrier hbq,
        show digitTokens (" port ".data) = [] by decide,
        List.nil_append, digitTokens_cons_nondigit hbq,
        digitTokens_append_barrier hbq,
        digitTokens_all_digits (Nat.repr p).data (repr_data_ne_nil p)
          (repr_all_digits p),
        digitTokens_cons_nondigit hbq,
        digitTokens_append_barrier hbq,
        show digitTokens
          (" and you can access it from within the container environment using ".data)
          = [] by decide,
        List.nil_append, digitTokens_cons_nondigit hbq,
        digitTokens_append_barrier hsl,
        show digitTokens ("curl http:/".data) = [] by decide,
        List.nil_append, digitTokens_cons_nondigit hsl,
        digitTokens_append_barrier hco, digitTokens_cons_nondigit hco,
        digitTokens_append_barrier hbq,
        digitTokens_all_digits (Nat.repr p).data (repr_data_ne_nil p)
          (repr_all_digits p),
        digitTokens_cons_nondigit hbq,
        show digitTokens (".".data) = [] by decide]
      simp
    refine ⟨?_, ?_, ?_, ?_, ?_, ?_, ?_, ?_⟩
    · refine ⟨"The challenge web server is running on ".data ++ ['`'],
        '`' :: (" port ".data ++ '`' :: ((Nat.repr p).data ++
          '`' :: (" and you can access it from within the container environment using ".data ++
          '`' :: ("curl http:/".data ++ '/' :: (name.data ++ ':' ::
          ((Nat.repr p).data ++ '`' :: ".".data)))))), ?_⟩
      rw [hdata]
      simp [List.append_assoc]
    · rw [hdt]; simp
    · intro h
      rw [hdata] at h
      have h1 := (infix_split_at_char hq h).resolve_left (by decide)
      have h2 := (infix_split_at_char hq h1).resolve_left hname_lh
      have h3 := (infix_split_at_char hq h2).resolve_left (by decide)
      have h4 := (infix_split_at_char hq h3).resolve_left
        (not_infix_of_all_digits (repr_all_digits p))
      have h5 := (infix_split_at_char hq h4).resolve_left (by decide)
      have h6 := (infix_split_at_char hslm h5).resolve_left (by decide)
      have h7 := (infix_split_at_char hcom h6).resolve_left hname_lh
      have h8 := (infix_split_at_char hq h7).resolve_left
        (not_infix_of_all_digits (repr_all_digits p))
      exact absurd h8 (by decide)
    · intro hmem
      rw [hdt] at hmem
      rcases List.mem_append.mp hmem with h | h
      · exact hext_name h
      · rcases List.mem_cons.mp h with h | h
        · exact hext_ne (repr_injective (String.ext h))
        · rcases List.mem_append.mp h with h | h
          · exact hext_name h
          · rcases List.mem_cons.mp h with h | h
            · exact hext_ne (repr_injective (String.ext h))
            · simp at h
    · intro _
      have ecurl : ("curl http://" : String).data =
          "curl http:/".data ++ ['/'] := by decide
      refine ⟨"The challenge web server is running on ".data ++ '`' ::
          (name.data ++ '`' :: (" port ".data ++ '`' :: ((Nat.repr p).data ++
            '`' :: (" and you can access it from within the container environment using ".data ++
            ['`'])))),
        '`' :: ".".data, ?_⟩
      rw [hdata]
      simp [String.data_append, ecurl, List.append_assoc]
    · intro hn
      exact absurd hweb hn
    · intro ext2
      rw [hd ext2, hd ext]
    · intro pm ext3 hlk
      rw [update_server_description_with_port_mapping]
      rw [hlk]
      show some (set_server_description category proto (some name) (some p)
        (some ext3)) = _
      rw [hd ext3, hd ext]
  · have hd : ∀ e2 : Nat,
        set_server_description category proto (some name) (some p) (some e2) =
          "The challenge server is running on `" ++ name ++ "` port `" ++
            Nat.repr p ++
            "` and you can access it from within the container environment using `connect_start " ++
            name ++ " " ++ Nat.repr p ++ "`." := by
      intro e2
      simp only [set_server_description]
      rw [if_neg hweb]
    have hdata : (set_server_description category proto (some name) (some p)
        (some ext)).data =
        "The challenge server is running on ".data ++ '`' ::
          (name.data ++ '`' :: (" port ".data ++ '`' :: ((Nat.repr p).data ++
            '`' :: (" and you can access it from within the container environment using ".data ++
            '`' :: ("connect_start".data ++ ' ' :: (name.data ++ ' ' ::
            ((Nat.repr p).data ++ '`' :: ".".data))))))) := by
      rw [hd ext]
      exact connect_desc_data name p
    have hdt : digitTokens (set_server_description category proto (some name)
        (some p) (some ext)).data =
        digitTokens name.data ++ ((Nat.repr p).data ::
          (digitTokens name.data ++ [(Nat.repr p).data])) := by
      rw [hdata]
      rw [digitTokens_append_barrier hbq,
        show digitTokens ("The challenge server is running on ".data) = []
          by decide,
        List.nil_append, digitTokens_cons_nondigit hbq,
        digitTokens_append_barrier hbq, digitTokens_cons_nondigit hbq,
        digitTokens_append_barrier hbq,
        show digitTokens (" port ".data) = [] by decide,
        List.nil_append, digitTokens_cons_nondigit hbq,
        digitTokens_append_barrier hbq,
        digitTokens_all_digits (Nat.repr p).data (repr_data_ne_nil p)
          (repr_all_digits p),
        digitTokens_cons_nondigit hbq,
        digitTokens_append_barrier hbq,
        show digitTokens
          (" and you can access it from within the container environment using ".data)
          = [] by decide,
        List.nil_append, digitTokens_cons_nondigit hbq,
        digitTokens_append_barrier hsp,
        show digitTokens ("connect_start".data) = [] by decide,
        List.nil_append, digitTokens_cons_nondigit hsp,
        digitTokens_append_barrier hsp, digitTokens_cons_nondigit hsp,
        digitTokens_append_barrier hbq,
        digitTokens_all_digits (Nat.repr p).data (repr_data_ne_nil p)
          (repr_all_digits p),
        digitTokens_cons_nondigit hbq,
        show digitTokens (".".data) = [] by decide]
      simp
    refine ⟨?_, ?_, ?_, ?_, ?_, ?_, ?_, ?_⟩
    · refine ⟨"The challenge server is running on ".data ++ ['`'],
        '`' :: (" port ".data ++ '`' :: ((Nat.repr p).data ++
          '`' :: (" and you can access it from within the container environment using ".data ++
          '`' :: ("connect_start".data ++ ' ' :: (name.data ++ ' ' ::
          ((Nat.repr p).data ++ '`' :: ".".data)))))), ?_⟩
      rw [hdata]
      simp [List.append_assoc]
    · rw [hdt]; simp
    · intro h
      rw [hdata] at h
      have h1 := (infix_split_at_char hq h).resolve_left (by decide)
      have h2 := (infix_split_at_char hq h1).resolve_left hname_lh
      have h3 := (infix_split_at_char hq h2).resolve_left (by decide)
      have h4 := (infix_split_at_char hq h3).resolve_left
        (not_infix_of_all_digits (repr_all_digits p))
      have h5 := (infix_split_at_char hq h4).resolve_left (by decide)
      have h6 := (infix_split_at_char hspm h5).resolve_left (by decide)
      have h7 := (infix_split_at_char hspm h6).resolve_left hname_lh
      have h8 := (infix_split_at_char hq h7).resolve_left
        (not_infix_of_all_digits (repr_all_digits p))
      exact absurd h8 (by decide)
    · intro hmem
      rw [hdt] at hmem
      rcases List.mem_append.mp hmem with h | h
      · exact hext_name h
      · rcases List.mem_cons.mp h with h | h
        · exact hext_ne (repr_injective (String.ext h))
        · rcases List.mem_append.mp h with h | h
          · exact hext_name h
          · rcases List.mem_cons.mp h with h | h
            · exact hext_ne (repr_injective (String.ext h))
            · simp at h
    · intro hcontra
      exact absurd hcontra hweb
    · intro _
      have econ : ("connect_start " : String).data =
          "connect_start".data ++ [' '] := by decide
      refine ⟨"The challenge server is running on ".data ++ '`' ::
          (name.data ++ '`' :: (" port ".data ++ '`' :: ((Nat.repr p).data ++
            '`' :: (" and you can access it from within the container environment using ".data ++
            ['`'])))),
        '`' :: ".".data, ?_⟩
      rw [hdata]
      simp [String.data_append, econ, List.append_assoc]
    · intro ext2
      rw [hd ext2, hd ext]
    · intro pm ext3 hlk
      rw [update_server_description_with_port_mapping]
      rw [hlk]
      show some (set_server_description category proto (some name) (some p)
        (some ext3)) = _
      rw [hd ext3, hd ext]

/-- Witness for C1 at a concrete web challenge (`alias` `web`, internal port
5000, external port 8080): the description mentions the alias and the
internal port, and neither `localhost` nor the external port. -/
theorem C1_server_description_internal_only_witness :
    ("web".data <:+: (set_server_description "web" none (some "web")
        (some 5000) (some 8080)).data) ∧
    ((Nat.repr 5000).data ∈ digitTokens (set_server_description "web" none
        (some "web") (some 5000) (some 8080)).data) ∧
    ¬ ("localhost".data <:+: (set_server_description "web" none (some "web")
        (some 5000) (some 8080)).data) ∧
    ((Nat.repr 8080).data ∉ digitTokens (set_server_description "web" none
        (some "web") (some 5000) (some 8080)).data) := by
  have h := C1_server_description_internal_only "web" none "web" 5000 8080
    (by decide) (by decide) (by decide)
  exact ⟨h.1, h.2.1, h.2.2.1, h.2.2.2.1⟩
